import Mathlib

/-! # AliAnalysisTaskEGAMonitor and ExtractGSE2

A shallow embedding of `AliAnalysisTaskEGAMonitor::IsEventSelected` and
`AliAnalysisTaskEGAMonitor::Run`
(`PWGJE/EMCALJetTasks/Tracks/AliAnalysisTaskEGAMonitor.cxx`) and of `PbPbBin`,
`PbPbColor` and the uncertainty declarations of `MakeGSE`
(`PWGLF/FORWARD/analysis2/dndeta/tracklets3/ExtractGSE2.C`), followed by the
properties established about them.
-/

set_option autoImplicit false

namespace EMCalTriggerPtAnalysis

/-! ## External constants and collaborators -/

/-- Bit constants the task reads from framework headers that are not part of
the sources at hand: the two selection masks `AliVEvent::kEMCEGA` and
`AliVEvent::kINT7`, and the two enum values `kL1GammaHigh`, `kL1GammaLow`
(bit positions, used through `BIT(n)`). They are parameters of the
development. -/
structure TriggerConsts where
  kEMCEGA : Nat
  kINT7 : Nat
  kL1GammaHigh : Nat
  kL1GammaLow : Nat
deriving Repr, DecidableEq

/-- One concrete choice of the constants, used to evaluate the definitions:
`kINT7 = BIT(1)`, `kEMCEGA = BIT(15)`, `kL1GammaHigh = 1`, `kL1GammaLow = 2`. -/
def sampleConsts : TriggerConsts :=
  { kEMCEGA := 32768, kINT7 := 2, kL1GammaHigh := 1, kL1GammaLow := 2 }

/-- The macro `BIT(n)`, i.e. `1ULL << n`. -/
def BIT (n : Nat) : Nat := 1 <<< n

/-- Conversion of an `Int_t` to the unsigned 64-bit operand of `&` against a
`BIT(n)` value (two's complement, sign extended). -/
def toU64 (x : Int) : Nat := (x % 2 ^ 64).toNat

/-- A `Double_t` value: finite (a rational), an infinity, or not-a-number. -/
inductive DoubleVal where
  | fin (q : ℚ)
  | posInf
  | negInf
  | nan
deriving DecidableEq

/-- The comparison `amp > thr` of an `Int_t` amplitude (converted exactly to
double) with a `Double_t` threshold. -/
def ampGt (amp : Int) : DoubleVal → Bool
  | .fin q => decide (q < (amp : ℚ))
  | .posInf => false
  | .negInf => true
  | .nan => false

/-- The comparison `amp < thr`. -/
def ampLt (amp : Int) : DoubleVal → Bool
  | .fin q => decide ((amp : ℚ) < q)
  | .posInf => true
  | .negInf => false
  | .nan => false

/-- The comparison `amp == thr`. -/
def ampEq (amp : Int) : DoubleVal → Bool
  | .fin q => decide ((amp : ℚ) = q)
  | .posInf => false
  | .negInf => false
  | .nan => false

/-- The comparison `amp <= thr`. -/
def ampLe (amp : Int) : DoubleVal → Bool
  | .fin q => decide ((amp : ℚ) ≤ q)
  | .posInf => true
  | .negInf => false
  | .nan => false

/-- The comparison `x < y` of two `Double_t` values. -/
def DoubleVal.lt : DoubleVal → DoubleVal → Bool
  | .fin a, .fin b => decide (a < b)
  | .fin _, .posInf => true
  | .negInf, .fin _ => true
  | .negInf, .posInf => true
  | _, _ => false

/-- The rational `2^k` for an integer exponent. -/
def pow2 (k : ℤ) : ℚ :=
  if 0 ≤ k then ((2 ^ k.toNat : ℕ) : ℚ) else 1 / ((2 ^ (-k).toNat : ℕ) : ℚ)

/-- The number of binary digits of `n` (0 for `n = 0`); the first argument
bounds the recursion and is taken to be `n` itself. -/
def bitLength : Nat → Nat → Nat
  | 0, _ => 0
  | fuel + 1, n => if n = 0 then 0 else bitLength fuel (n / 2) + 1

/-- The binary exponent of a positive rational `m`: the integer `e` with
`2^e <= m < 2^(e+1)`. -/
def floorLog2 (m : ℚ) : ℤ :=
  let a : ℤ := (bitLength m.num.natAbs m.num.natAbs : ℕ)
  let b : ℤ := (bitLength m.den m.den : ℕ)
  if pow2 (a - b) ≤ m then a - b else a - b - 1

/-- Rounding of a rational to the nearest integer, a tie going to the even
one. -/
def roundHalfEven (x : ℚ) : ℤ :=
  let f : ℤ := ⌊x⌋
  let r : ℚ := x - f
  if r < 1 / 2 then f
  else if 1 / 2 < r then f + 1
  else if f % 2 = 0 then f else f + 1

/-- Rounding of an exact result to `Double_t` (IEEE 754 binary64, round to
nearest, ties to even): 53 significant bits for exponents from -1022 up,
multiples of `2^-1074` below that, and an infinity once the rounded magnitude
reaches `2^1024`. The sign of a zero is not represented. -/
def roundDouble (q : ℚ) : DoubleVal :=
  if q = 0 then .fin 0
  else
    let m : ℚ := if q < 0 then -q else q
    let e : ℤ := max (floorLog2 m) (-1022)
    let u : ℚ := pow2 (e - 52)
    let v : ℚ := (roundHalfEven (q / u) : ℚ) * u
    if pow2 1024 ≤ v then .posInf
    else if v ≤ -pow2 1024 then .negInf
    else .fin v

/-- The sum `x + y` of two `Double_t` values: the exact sum of two finite
values rounded to `Double_t`; the infinities and not-a-number follow
IEEE 754. -/
def DoubleVal.add : DoubleVal → DoubleVal → DoubleVal
  | .fin a, .fin b => roundDouble (a + b)
  | .nan, _ => .nan
  | _, .nan => .nan
  | .posInf, .negInf => .nan
  | .negInf, .posInf => .nan
  | .posInf, _ => .posInf
  | _, .posInf => .posInf
  | .negInf, _ => .negInf
  | _, .negInf => .negInf

/-- The quotient `x / d` by a positive finite constant `d` (the literal 2 in
the source): the exact quotient of a finite value rounded to `Double_t`. -/
def DoubleVal.divPos (x : DoubleVal) (d : ℚ) : DoubleVal :=
  match x with
  | .fin a => roundDouble (a / d)
  | .posInf => .posInf
  | .negInf => .negInf
  | .nan => .nan

/-- The conversion of a `Double_t` to a condition, as in `if (eff)`: true unless
the value is zero. -/
def DoubleVal.toBool : DoubleVal → Bool
  | .fin a => decide (a ≠ 0)
  | _ => true

/-- Substring test on character lists. -/
def containsChars : List Char → List Char → Bool
  | [], pat => pat.isPrefixOf []
  | c :: cs, pat => pat.isPrefixOf (c :: cs) || containsChars cs pat

/-- The call `TString::Contains(pat)` with the default exact comparison: `pat`
occurs as a contiguous substring of `s`. -/
def Contains (s pat : String) : Bool := containsChars s.data pat.data

/-! ## Data model -/

/-- What `Run` reads of an `AliEMCALTriggerPatchInfo`. -/
structure TriggerPatch where
  colStart : Int
  rowStart : Int
  adcAmp : Int
  isGammaLowRecalc : Bool
deriving Repr, DecidableEq

/-- One entry of the raw calorimeter trigger stream (`AliVCaloTrigger`): the
values `GetPosition` and `GetTriggerBits` return for it. -/
structure RawEntry where
  col : Int
  row : Int
  triggerbits : Int
deriving Repr, DecidableEq

/-- The event metadata the task reads. `caloTrigger` is the result of
`InputEvent()->GetCaloTrigger("EMCAL")`, `none` standing for a null pointer. -/
structure Event where
  vertexSelected2013pA : Bool
  pileUp : Bool
  selectionMask : Nat
  firedTriggerClasses : String
  patches : List TriggerPatch
  caloTrigger : Option (List RawEntry)

/-- The data members `fUseRecalcPatches`, `fRecalcLow`, `fRecalcHigh`. -/
structure Config where
  fUseRecalcPatches : Bool
  fRecalcLow : DoubleVal
  fRecalcHigh : DoubleVal

/-- The histogram sink: accumulated count per (histogram name, column, row). -/
abbrev Sink := String → Int → Int → Nat

/-- The sink with every bin empty. -/
def Sink.empty : Sink := fun _ _ _ => 0

/-- Modelled from the spec: `THistManager::FillTH2(name, x, y)`, which is not
among the sources; the sink is "a mapping from (histogram-name, column, row) to
an accumulated count" and the call is "increment bin at (col,row) for named
histogram". -/
def FillTH2 (h : Sink) (name : String) (x y : Int) : Sink :=
  fun n c r => if n = name ∧ c = x ∧ r = y then h n c r + 1 else h n c r

/-- The name `Form("hColRowG1%s", t.c_str())`. -/
def nameG1 (t : String) : String := "hColRowG1" ++ t

/-- The name `Form("hColRowG2%s", t.c_str())`. -/
def nameG2 (t : String) : String := "hColRowG2" ++ t

/-! ## Operations -/

/-- `AliAnalysisTaskEGAMonitor::IsEventSelected`. -/
def IsEventSelected (k : TriggerConsts) (ev : Event) : Bool :=
  if !ev.vertexSelected2013pA then false
  else if ev.pileUp then false
  else if !(ev.selectionMask &&& (k.kEMCEGA ||| k.kINT7) != 0) then false
  else true

/-- The first block of `Run`: the vector `triggers`. -/
def ClassifyTriggers (k : TriggerConsts) (ev : Event) : List String :=
  if ev.selectionMask &&& k.kEMCEGA != 0 then
    let t0 : List String := []
    let t1 := if Contains ev.firedTriggerClasses "EG1" then t0 ++ ["EG1"] else t0
    let t2 := if Contains ev.firedTriggerClasses "EG2" then t1 ++ ["EG2"] else t1
    let t3 := if Contains ev.firedTriggerClasses "DG1" then t2 ++ ["DG1"] else t2
    let t4 := if Contains ev.firedTriggerClasses "DG2" then t3 ++ ["DG2"] else t3
    t4
  else
    ["MB"]

/-- The loop `for(const auto &t : triggers) fHistos->FillTH2(Form(fmt, t), col, row)`. -/
def fillAll (mkName : String → String) (triggers : List String) (col row : Int)
    (h : Sink) : Sink :=
  triggers.foldl (fun acc t => FillTH2 acc (mkName t) col row) h

/-- The body of the loop over `fTriggerPatchInfo` in recalculated mode. -/
def processPatch (cfg : Config) (triggers : List String) (h : Sink)
    (patch : TriggerPatch) : Sink :=
  if !patch.isGammaLowRecalc then h
  else
    let h1 := if ampGt patch.adcAmp cfg.fRecalcLow then
        fillAll nameG2 triggers patch.colStart patch.rowStart h
      else h
    let h2 := if ampGt patch.adcAmp cfg.fRecalcHigh then
        fillAll nameG1 triggers patch.colStart patch.rowStart h1
      else h1
    h2

/-- The test `triggerbits & BIT(n)` as a condition. -/
def bitSet (triggerbits : Int) (n : Nat) : Bool :=
  toU64 triggerbits &&& BIT n != 0

/-- The condition of the `continue` in the raw-mode loop:
`!(triggerbits & (BIT(kL1GammaHigh) | BIT(kL1GammaLow)))`. -/
def rawSkip (k : TriggerConsts) (e : RawEntry) : Bool :=
  !(toU64 e.triggerbits &&& (BIT k.kL1GammaHigh ||| BIT k.kL1GammaLow) != 0)

/-- The body of the loop over the raw trigger stream in raw mode. -/
def processRaw (k : TriggerConsts) (triggers : List String) (h : Sink)
    (e : RawEntry) : Sink :=
  if rawSkip k e then h
  else
    let h1 := if bitSet e.triggerbits k.kL1GammaHigh then
        fillAll nameG1 triggers e.col e.row h
      else h
    let h2 := if bitSet e.triggerbits k.kL1GammaLow then
        fillAll nameG2 triggers e.col e.row h1
      else h1
    h2

/-- `AliAnalysisTaskEGAMonitor::Run`. The result is `none` when the raw trigger
object is dereferenced while absent, and the updated sink otherwise (the
function then returns `true`). -/
def Run (k : TriggerConsts) (cfg : Config) (ev : Event) (h : Sink) : Option Sink :=
  let triggers := ClassifyTriggers k ev
  if cfg.fUseRecalcPatches then
    some (ev.patches.foldl (processPatch cfg triggers) h)
  else
    match ev.caloTrigger with
    | none => none
    | some entries => some (entries.foldl (processRaw k triggers) h)

/-- Modelled from the spec: the host task's per-event driver
(`AliAnalysisTaskEmcal::UserExec`), which is not among the sources: "if event
selection fails, the event is skipped entirely (no histogram updates, not an
error)"; a selected event is handed to `Run`. -/
def processEvent (k : TriggerConsts) (cfg : Config) (ev : Event) (h : Sink) :
    Option Sink :=
  if IsEventSelected k ev then Run k cfg ev h else some h

/-- The four gamma-trigger labels, in the order `Run` tests them. -/
def gammaLabels : List String := ["EG1", "EG2", "DG1", "DG2"]

/-- A patch that counts for the low-gamma histogram at bin (`c`, `r`): flagged
gamma-low-recalc, starting at (`c`, `r`), amplitude above `fRecalcLow`. -/
def countsLow (cfg : Config) (c r : Int) (p : TriggerPatch) : Bool :=
  p.isGammaLowRecalc && ampGt p.adcAmp cfg.fRecalcLow &&
    decide (p.colStart = c) && decide (p.rowStart = r)

/-- A patch that counts for the high-gamma histogram at bin (`c`, `r`): flagged
gamma-low-recalc, starting at (`c`, `r`), amplitude above `fRecalcHigh`. -/
def countsHigh (cfg : Config) (c r : Int) (p : TriggerPatch) : Bool :=
  p.isGammaLowRecalc && ampGt p.adcAmp cfg.fRecalcHigh &&
    decide (p.colStart = c) && decide (p.rowStart = r)

/-! ## Sample inputs -/

/-- A minimum-bias event (gamma bit unset) whose fired-class string nevertheless
names gamma classes. -/
def evMinBias : Event :=
  { vertexSelected2013pA := true, pileUp := false, selectionMask := 2,
    firedTriggerClasses := "CINT7-B-NOPF-CENT CEMC7EG1-B-NOPF-CENT CDMC7DG2-B-NOPF-CENT",
    patches := [], caloTrigger := some [] }

/-- A gamma-triggered event whose fired-class string names `EG1` and `DG2`. -/
def evGamma : Event :=
  { vertexSelected2013pA := true, pileUp := false, selectionMask := 32768,
    firedTriggerClasses := "CEMC7EG1-B-NOPF-CENT CDMC7DG2-B-NOPF-CENT",
    patches := [], caloTrigger := some [] }

/-- A selected event with the gamma bit set whose fired-class string names none
of the four labels. -/
def evGammaNoLabel : Event :=
  { vertexSelected2013pA := true, pileUp := false, selectionMask := 32768,
    firedTriggerClasses := "CEMC7EGA-B-NOPF-CENTNOTRD",
    patches := [], caloTrigger := some [] }

/-- A pile-up event with the gamma bit set. -/
def evPileUp : Event :=
  { vertexSelected2013pA := true, pileUp := true, selectionMask := 32768,
    firedTriggerClasses := "CEMC7EG1-B-NOPF-CENT",
    patches := [{ colStart := 3, rowStart := 4, adcAmp := 200, isGammaLowRecalc := true }],
    caloTrigger := some [{ col := 3, row := 4, triggerbits := 6 }] }

/-- A recalculated-mode configuration with thresholds 100 (low) and 250 (high). -/
def cfgRecalc : Config :=
  { fUseRecalcPatches := true, fRecalcLow := .fin 100, fRecalcHigh := .fin 250 }

/-- A raw-mode configuration. -/
def cfgRaw : Config :=
  { fUseRecalcPatches := false, fRecalcLow := .fin 100, fRecalcHigh := .fin 250 }

/-- A flagged patch with amplitude between the thresholds of `cfgRecalc`. -/
def patchBetween : TriggerPatch :=
  { colStart := 3, rowStart := 4, adcAmp := 200, isGammaLowRecalc := true }

/-- A flagged patch with amplitude above both thresholds of `cfgRecalc`. -/
def patchAbove : TriggerPatch :=
  { colStart := 3, rowStart := 4, adcAmp := 300, isGammaLowRecalc := true }

/-- A flagged patch with amplitude equal to the low threshold of `cfgRecalc`. -/
def patchAtLow : TriggerPatch :=
  { colStart := 3, rowStart := 4, adcAmp := 100, isGammaLowRecalc := true }

/-- A flagged patch with amplitude equal to the high threshold of `cfgRecalc`. -/
def patchAtHigh : TriggerPatch :=
  { colStart := 3, rowStart := 4, adcAmp := 250, isGammaLowRecalc := true }

/-- A raw entry with both gamma bits set (under `sampleConsts`). -/
def rawBoth : RawEntry := { col := 3, row := 4, triggerbits := 6 }

/-- A raw entry with only the gamma-high bit set. -/
def rawHigh : RawEntry := { col := 3, row := 4, triggerbits := 2 }

/-- A raw entry with only the gamma-low bit set. -/
def rawLow : RawEntry := { col := 3, row := 4, triggerbits := 4 }

/-- A raw entry with neither gamma bit set, at a nonzero position. -/
def rawNone : RawEntry := { col := 3, row := 4, triggerbits := 1 }

/-- A raw entry at position (0, 0) with the gamma-high bit set. -/
def rawOriginHigh : RawEntry := { col := 0, row := 0, triggerbits := 2 }

/-- A recalculated-mode configuration whose high threshold (100) lies below its
low threshold (250). -/
def cfgInverted : Config :=
  { fUseRecalcPatches := true, fRecalcLow := .fin 250, fRecalcHigh := .fin 100 }

/-- A patch that is not flagged gamma-low-recalc, with a large amplitude. -/
def patchUnflagged : TriggerPatch :=
  { colStart := 3, rowStart := 4, adcAmp := 900, isGammaLowRecalc := false }

/-- A flagged patch above both thresholds of `cfgRecalc`, at another position. -/
def patchElsewhere : TriggerPatch :=
  { colStart := 7, rowStart := 9, adcAmp := 300, isGammaLowRecalc := true }

/-- A patch collection mixing the sample patches. -/
def samplePatches : List TriggerPatch :=
  [patchBetween, patchUnflagged, patchAbove, patchElsewhere, patchAtLow, patchAbove]

end EMCalTriggerPtAnalysis

namespace ExtractGSE2

open EMCalTriggerPtAnalysis

/-! ## ExtractGSE2.C: centrality bins and colours -/

/-- The local `Double_t c = (c1+c2) / 2` of `PbPbBin`. -/
def centralityMean (c1 c2 : DoubleVal) : DoubleVal := (c1.add c2).divPos 2

/-- The `if`/`else if` cascade of `PbPbBin` on the local `c`. -/
def binOfCentrality (c : DoubleVal) : Nat :=
  if c.lt (.fin 5) then 0
  else if c.lt (.fin 10) then 1
  else if c.lt (.fin 20) then 2
  else if c.lt (.fin 30) then 3
  else if c.lt (.fin 40) then 4
  else if c.lt (.fin 50) then 5
  else if c.lt (.fin 60) then 6
  else if c.lt (.fin 70) then 7
  else if c.lt (.fin 80) then 8
  else if c.lt (.fin 90) then 9
  else 10

/-- The function `PbPbBin(c1, c2)`. -/
def PbPbBin (c1 c2 : DoubleVal) : Nat := binOfCentrality (centralityMean c1 c2)

/-- The `Double_t` literal `1e-6` (the double nearest to one millionth). -/
def lit1em6 : ℚ := 4722366482869645 / 2 ^ 72

/-- The `Double_t` literal `0.01`. -/
def lit0p01 : ℚ := 5764607523034235 / 2 ^ 59

/-- The `Double_t` literal `0.02`. -/
def lit0p02 : ℚ := 5764607523034235 / 2 ^ 58

/-- The `Double_t` literal `0.001`. -/
def lit0p001 : ℚ := 1152921504606847 / 2 ^ 60

/-- The `Double_t` literal `0.005`. -/
def lit0p005 : ℚ := 5764607523034235 / 2 ^ 60

/-- The `Double_t` literal `0.004`. -/
def lit0p004 : ℚ := 1152921504606847 / 2 ^ 58

/-- The `Double_t` literal `0.075`. -/
def lit0p075 : ℚ := 5404319552844595 / 2 ^ 56

/-- The `Double_t` literal `0.062`. -/
def lit0p062 : ℚ := 1116892707587883 / 2 ^ 54

/-- What `MakeGSE` reads of the result histogram `g`: the content of bin 0. -/
structure ResultHist where
  binContent0 : DoubleVal
deriving DecidableEq

/-- The part of a `GraphSysErr` object followed here: the common systematic
uncertainties defined on it, as (name, relative value) pairs in the order of
definition. -/
structure GraphSysErr where
  commons : List (String × DoubleVal)
deriving DecidableEq

/-- The function `MakeCommon(o, name, val, c)`: `DefineCommon` adds one common
uncertainty to the graph (the colour settings are not followed). -/
def MakeCommon (gse : GraphSysErr) (name : String) (val : DoubleVal) : GraphSysErr :=
  { commons := gse.commons ++ [(name, val)] }

/-- Lines 161 to 163 of `MakeGSE`: the efficiency read from bin 0, after the
guard `if (eff < 1e-6) eff = 1`. -/
def effAfterGuard (read : DoubleVal) : DoubleVal :=
  let eff := read
  if eff.lt (.fin lit1em6) then .fin 1 else eff

/-- The function `MakeGSE(d, dimen, sNN, c1, c2)`, as far as the common
uncertainties go. `hasClass` is the outcome of `gROOT->GetClass("GraphSysErr")`
and `g` that of `GetH1(d, sub)` (`none` for a null pointer); the result is
`none` when the function returns 0. The floating-point formula of `CSysEval`
(a call of `TMath::Power`) is not followed: `csysEval x sMin sMax` stands for
the value `CSysEval(x, sMin, sMax)` returns. -/
def MakeGSE (csysEval : DoubleVal → DoubleVal → DoubleVal → DoubleVal)
    (hasClass : Bool) (g : Option ResultHist) (sNN : Nat)
    (_c1 c2 : DoubleVal) : Option GraphSysErr :=
  if !hasClass then none
  else
    match g with
    | none => none
    | some hist =>
      let eff := effAfterGuard hist.binContent0
      let cMin : DoubleVal := if sNN = 5023 then .fin lit0p005 else .fin lit0p004
      let cMax : DoubleVal := if sNN = 5023 then .fin lit0p075 else .fin lit0p062
      let bg := csysEval c2 (.fin lit0p02) (.fin lit0p001)
      let c := csysEval c2 cMin cMax
      let gse0 : GraphSysErr := { commons := [] }
      let gse1 := MakeCommon gse0 "Particle composition" (.fin lit0p01)
      let gse2 := MakeCommon gse1 "Weak decay" (.fin lit0p01)
      let gse3 := MakeCommon gse2 "pT extrapolation" (.fin lit0p02)
      let gse4 := MakeCommon gse3 "EG dependence" (.fin lit0p02)
      let gse5 := MakeCommon gse4 "Background subtraction" bg
      let gse6 := MakeCommon gse5 "Centrality" c
      let gse7 := if eff.toBool then MakeCommon gse6 "TRIGGER" (.fin lit0p02) else gse6
      some gse7

/-- A stand-in for `CSysEval`, used to evaluate `MakeGSE`: its value at `x = 0`,
which is `sMin`. -/
def csysAtZero (_x sMin _sMax : DoubleVal) : DoubleVal := sMin

/-- A result histogram whose bin 0 is empty (no trigger efficiency stored). -/
def histNoEff : ResultHist := { binContent0 := .fin 0 }

/-- A result histogram carrying a trigger efficiency of one half. -/
def histHalfEff : ResultHist := { binContent0 := .fin (1 / 2) }

end ExtractGSE2

namespace EMCalTriggerPtAnalysis

/-! ## Auxiliary lemmas -/

theorem land_lor_eq_zero_iff (x a b : Nat) :
    x &&& (a ||| b) = 0 ↔ x &&& a = 0 ∧ x &&& b = 0 := by
  constructor
  · intro h
    constructor
    · apply Nat.eq_of_testBit_eq
      intro i
      have hi := congrArg (fun n => Nat.testBit n i) h
      simp only [Nat.testBit_and, Nat.testBit_or, Nat.zero_testBit] at hi ⊢
      cases hx : x.testBit i <;> cases ha : a.testBit i <;> simp_all
    · apply Nat.eq_of_testBit_eq
      intro i
      have hi := congrArg (fun n => Nat.testBit n i) h
      simp only [Nat.testBit_and, Nat.testBit_or, Nat.zero_testBit] at hi ⊢
      cases hx : x.testBit i <;> cases hb : b.testBit i <;> simp_all
  · rintro ⟨ha, hb⟩
    apply Nat.eq_of_testBit_eq
    intro i
    have hai := congrArg (fun n => Nat.testBit n i) ha
    have hbi := congrArg (fun n => Nat.testBit n i) hb
    simp only [Nat.testBit_and, Nat.testBit_or, Nat.zero_testBit] at hai hbi ⊢
    cases hx : x.testBit i <;> simp_all

theorem land_lor_bne_zero (x a b : Nat) :
    (x &&& (a ||| b) != 0) = ((x &&& a != 0) || (x &&& b != 0)) := by
  rw [Bool.eq_iff_iff]
  simp only [bne_iff_ne, Bool.or_eq_true, ne_eq]
  rw [land_lor_eq_zero_iff]
  tauto

theorem nameG1_inj {s t : String} (h : nameG1 s = nameG1 t) : s = t := by
  unfold nameG1 at h
  have hd := congrArg String.data h
  simp only [String.data_append] at hd
  exact String.ext (List.append_cancel_left hd)

theorem nameG2_inj {s t : String} (h : nameG2 s = nameG2 t) : s = t := by
  unfold nameG2 at h
  have hd := congrArg String.data h
  simp only [String.data_append] at hd
  exact String.ext (List.append_cancel_left hd)

theorem nameG1_ne_nameG2 (s t : String) : nameG1 s ≠ nameG2 t := by
  intro h
  unfold nameG1 nameG2 at h
  have hd := congrArg (fun u => (String.data u).get? 8) h
  simp [String.data_append] at hd

/-- Content of a bin after the fan-out loop: the old content plus, when the bin
is the filled one, the number of classes whose histogram has that name. -/
theorem fillAll_apply (mkName : String → String) (triggers : List String)
    (col row : Int) (h : Sink) (n : String) (c r : Int) :
    fillAll mkName triggers col row h n c r =
      h n c r + (if c = col ∧ r = row then (triggers.map mkName).count n else 0) := by
  unfold fillAll
  induction triggers generalizing h with
  | nil => simp
  | cons t ts ih =>
    rw [List.foldl_cons, ih]
    by_cases hb : c = col ∧ r = row
    · by_cases hn : n = mkName t
      · subst hn
        simp [FillTH2, hb, List.count_cons]
        omega
      · have hn2 : ¬ mkName t = n := fun e => hn e.symm
        simp [FillTH2, hb, hn, List.count_cons, hn2]
    · have : ¬ (n = mkName t ∧ c = col ∧ r = row) := fun e => hb e.2
      simp [FillTH2, hb, this]

/-- The substring test agrees with the infix relation on character lists. -/
theorem containsChars_iff (s pat : List Char) :
    containsChars s pat = true ↔ pat <:+: s := by
  induction s with
  | nil =>
    simp only [containsChars, List.isPrefixOf_iff_prefix]
    constructor
    · intro hp
      exact hp.isInfix
    · intro hi
      rw [List.eq_nil_of_infix_nil hi]
  | cons c cs ih =>
    simp only [containsChars, Bool.or_eq_true, List.isPrefixOf_iff_prefix, ih]
    exact List.infix_cons_iff.symm

theorem Contains_iff (s pat : String) :
    Contains s pat = true ↔ pat.data <:+: s.data :=
  containsChars_iff s.data pat.data

/-- With the gamma bit set, `triggers` is the sublist of the four labels that
the fired-class string contains. -/
theorem ClassifyTriggers_eq_filter (k : TriggerConsts) (ev : Event)
    (hbit : ev.selectionMask &&& k.kEMCEGA ≠ 0) :
    ClassifyTriggers k ev =
      gammaLabels.filter (fun t => Contains ev.firedTriggerClasses t) := by
  unfold ClassifyTriggers gammaLabels
  have hb : (ev.selectionMask &&& k.kEMCEGA != 0) = true := by simpa using hbit
  rw [if_pos hb]
  cases h1 : Contains ev.firedTriggerClasses "EG1" <;>
    cases h2 : Contains ev.firedTriggerClasses "EG2" <;>
    cases h3 : Contains ev.firedTriggerClasses "DG1" <;>
    cases h4 : Contains ev.firedTriggerClasses "DG2" <;>
    simp [List.filter, h1, h2, h3, h4]

theorem gammaLabels_nodup : gammaLabels.Nodup := by decide

/-- The vector `triggers` never holds a class twice. -/
theorem ClassifyTriggers_nodup (k : TriggerConsts) (ev : Event) :
    (ClassifyTriggers k ev).Nodup := by
  by_cases hbit : ev.selectionMask &&& k.kEMCEGA = 0
  · have hb : ¬ ((ev.selectionMask &&& k.kEMCEGA != 0) = true) := by simpa using hbit
    unfold ClassifyTriggers
    rw [if_neg hb]
    exact List.nodup_singleton _
  · rw [ClassifyTriggers_eq_filter k ev hbit]
    exact gammaLabels_nodup.filter _

theorem count_map_nameG1 (ts : List String) (t : String) :
    (ts.map nameG1).count (nameG1 t) = ts.count t :=
  List.count_map_of_injective ts nameG1 (fun _ _ h => nameG1_inj h) t

theorem count_map_nameG2 (ts : List String) (t : String) :
    (ts.map nameG2).count (nameG2 t) = ts.count t :=
  List.count_map_of_injective ts nameG2 (fun _ _ h => nameG2_inj h) t

theorem count_map_nameG1_nameG2 (ts : List String) (t : String) :
    (ts.map nameG1).count (nameG2 t) = 0 := by
  apply List.count_eq_zero_of_not_mem
  intro h
  obtain ⟨u, _, hu⟩ := List.mem_map.1 h
  exact nameG1_ne_nameG2 u t hu

theorem count_map_nameG2_nameG1 (ts : List String) (t : String) :
    (ts.map nameG2).count (nameG1 t) = 0 := by
  apply List.count_eq_zero_of_not_mem
  intro h
  obtain ⟨u, _, hu⟩ := List.mem_map.1 h
  exact nameG1_ne_nameG2 t u hu.symm

theorem count_eq_one_of_nodup {ts : List String} {t : String}
    (hnd : ts.Nodup) (ht : t ∈ ts) : ts.count t = 1 :=
  List.count_eq_one_of_mem hnd ht

/-- Effect of one recalculated-mode iteration on a bin of a `G2` histogram. -/
theorem processPatch_G2 (cfg : Config) (ts : List String) (h : Sink)
    (p : TriggerPatch) (t : String) (c r : Int) :
    processPatch cfg ts h p (nameG2 t) c r =
      h (nameG2 t) c r +
        (if p.isGammaLowRecalc = true ∧ ampGt p.adcAmp cfg.fRecalcLow = true ∧
            c = p.colStart ∧ r = p.rowStart then ts.count t else 0) := by
  unfold processPatch
  cases hf : p.isGammaLowRecalc
  · simp
  · cases hlo : ampGt p.adcAmp cfg.fRecalcLow <;>
      cases hhi : ampGt p.adcAmp cfg.fRecalcHigh <;>
      simp [fillAll_apply, count_map_nameG2, count_map_nameG1_nameG2]

/-- Effect of one recalculated-mode iteration on a bin of a `G1` histogram. -/
theorem processPatch_G1 (cfg : Config) (ts : List String) (h : Sink)
    (p : TriggerPatch) (t : String) (c r : Int) :
    processPatch cfg ts h p (nameG1 t) c r =
      h (nameG1 t) c r +
        (if p.isGammaLowRecalc = true ∧ ampGt p.adcAmp cfg.fRecalcHigh = true ∧
            c = p.colStart ∧ r = p.rowStart then ts.count t else 0) := by
  unfold processPatch
  cases hf : p.isGammaLowRecalc
  · simp
  · cases hlo : ampGt p.adcAmp cfg.fRecalcLow <;>
      cases hhi : ampGt p.adcAmp cfg.fRecalcHigh <;>
      simp [fillAll_apply, count_map_nameG1, count_map_nameG2_nameG1]

theorem rawSkip_eq (k : TriggerConsts) (e : RawEntry) :
    rawSkip k e =
      !(bitSet e.triggerbits k.kL1GammaHigh || bitSet e.triggerbits k.kL1GammaLow) := by
  unfold rawSkip bitSet
  rw [land_lor_bne_zero]

/-- Effect of one raw-mode iteration on a bin of a `G1` histogram. -/
theorem processRaw_G1 (k : TriggerConsts) (ts : List String) (h : Sink)
    (e : RawEntry) (t : String) (c r : Int) :
    processRaw k ts h e (nameG1 t) c r =
      h (nameG1 t) c r +
        (if bitSet e.triggerbits k.kL1GammaHigh = true ∧ c = e.col ∧ r = e.row
          then ts.count t else 0) := by
  unfold processRaw
  rw [rawSkip_eq]
  cases hhi : bitSet e.triggerbits k.kL1GammaHigh <;>
    cases hlo : bitSet e.triggerbits k.kL1GammaLow <;>
    simp [fillAll_apply, count_map_nameG1, count_map_nameG2_nameG1]

/-- Effect of one raw-mode iteration on a bin of a `G2` histogram. -/
theorem processRaw_G2 (k : TriggerConsts) (ts : List String) (h : Sink)
    (e : RawEntry) (t : String) (c r : Int) :
    processRaw k ts h e (nameG2 t) c r =
      h (nameG2 t) c r +
        (if bitSet e.triggerbits k.kL1GammaLow = true ∧ c = e.col ∧ r = e.row
          then ts.count t else 0) := by
  unfold processRaw
  rw [rawSkip_eq]
  cases hhi : bitSet e.triggerbits k.kL1GammaHigh <;>
    cases hlo : bitSet e.triggerbits k.kL1GammaLow <;>
    simp [fillAll_apply, count_map_nameG2, count_map_nameG1_nameG2]

/-- An entry with neither gamma bit set is skipped. -/
theorem processRaw_skip (k : TriggerConsts) (ts : List String) (h : Sink)
    (e : RawEntry) (hhi : bitSet e.triggerbits k.kL1GammaHigh = false)
    (hlo : bitSet e.triggerbits k.kL1GammaLow = false) :
    processRaw k ts h e = h := by
  unfold processRaw
  rw [rawSkip_eq, hhi, hlo]
  simp

theorem ampLt_not_ampGt {a : Int} {d : DoubleVal} (h : ampLt a d = true) :
    ampGt a d = false := by
  cases d with
  | fin q =>
    simp only [ampLt, ampGt, decide_eq_true_eq, decide_eq_false_iff_not, not_lt] at h ⊢
    exact le_of_lt h
  | posInf => rfl
  | negInf => simp [ampLt] at h
  | nan => rfl

theorem ampEq_not_ampGt {a : Int} {d : DoubleVal} (h : ampEq a d = true) :
    ampGt a d = false := by
  cases d with
  | fin q =>
    simp only [ampEq, ampGt, decide_eq_true_eq, decide_eq_false_iff_not, not_lt] at h ⊢
    exact le_of_eq h
  | posInf => rfl
  | negInf => simp [ampEq] at h
  | nan => rfl

theorem IsEventSelected_iff (k : TriggerConsts) (ev : Event) :
    IsEventSelected k ev = true ↔
      ev.vertexSelected2013pA = true ∧ ev.pileUp = false ∧
        (ev.selectionMask &&& k.kEMCEGA ≠ 0 ∨ ev.selectionMask &&& k.kINT7 ≠ 0) := by
  unfold IsEventSelected
  rw [land_lor_bne_zero]
  cases hv : ev.vertexSelected2013pA <;> cases hp : ev.pileUp <;>
    by_cases h1 : ev.selectionMask &&& k.kEMCEGA = 0 <;>
    by_cases h2 : ev.selectionMask &&& k.kINT7 = 0 <;>
    simp [h1, h2]

/-- In recalculated mode `Run` folds the patch loop body over the patch
collection and returns. -/
theorem Run_recalc (k : TriggerConsts) (cfg : Config) (ev : Event) (h : Sink)
    (hmode : cfg.fUseRecalcPatches = true) :
    Run k cfg ev h =
      some (ev.patches.foldl (processPatch cfg (ClassifyTriggers k ev)) h) := by
  unfold Run
  simp [hmode]

/-- In raw mode, with the raw trigger object present, `Run` folds the raw loop
body over its entries and returns. -/
theorem Run_raw (k : TriggerConsts) (cfg : Config) (ev : Event) (h : Sink)
    (entries : List RawEntry) (hmode : cfg.fUseRecalcPatches = false)
    (hraw : ev.caloTrigger = some entries) :
    Run k cfg ev h =
      some (entries.foldl (processRaw k (ClassifyTriggers k ev)) h) := by
  unfold Run
  simp [hmode, hraw]

theorem ampLe_not_ampGt {a : Int} {d : DoubleVal} (h : ampLe a d = true) :
    ampGt a d = false := by
  cases d with
  | fin q =>
    simp only [ampLe, ampGt, decide_eq_true_eq, decide_eq_false_iff_not, not_lt] at h ⊢
    exact h
  | posInf => rfl
  | negInf => simp [ampLe] at h
  | nan => rfl

/-- A threshold exceeded by an amplitude lies below any threshold that the same
amplitude does not exceed. -/
theorem lt_of_ampGt_of_ampLe {a : Int} {lo hi : DoubleVal}
    (h1 : ampGt a hi = true) (h2 : ampLe a lo = true) : DoubleVal.lt hi lo = true := by
  cases hi <;> cases lo <;>
    simp only [ampGt, ampLe, DoubleVal.lt, decide_eq_true_eq] at h1 h2 ⊢ <;>
    first
      | exact lt_of_lt_of_le h1 h2
      | exact absurd h1 (by decide)
      | exact absurd h2 (by decide)

/-- Content of a `G2` bin after the whole patch loop. -/
theorem foldl_processPatch_G2 (cfg : Config) (ts : List String)
    (ps : List TriggerPatch) (h : Sink) (t : String) (c r : Int) :
    ps.foldl (processPatch cfg ts) h (nameG2 t) c r =
      h (nameG2 t) c r + ts.count t * ps.countP (countsLow cfg c r) := by
  induction ps generalizing h with
  | nil => simp
  | cons p ps ih =>
    rw [List.foldl_cons, ih, processPatch_G2, List.countP_cons]
    by_cases hp : countsLow cfg c r p = true
    · have hc : p.isGammaLowRecalc = true ∧ ampGt p.adcAmp cfg.fRecalcLow = true ∧
          c = p.colStart ∧ r = p.rowStart := by
        simp only [countsLow, Bool.and_eq_true, decide_eq_true_eq] at hp
        exact ⟨hp.1.1.1, hp.1.1.2, hp.1.2.symm, hp.2.symm⟩
      rw [if_pos hc, if_pos hp]
      ring
    · have hc : ¬ (p.isGammaLowRecalc = true ∧ ampGt p.adcAmp cfg.fRecalcLow = true ∧
          c = p.colStart ∧ r = p.rowStart) := by
        intro hc
        apply hp
        simp only [countsLow, Bool.and_eq_true, decide_eq_true_eq]
        exact ⟨⟨⟨hc.1, hc.2.1⟩, hc.2.2.1.symm⟩, hc.2.2.2.symm⟩
      rw [if_neg hc, if_neg hp]
      ring

/-- Content of a `G1` bin after the whole patch loop. -/
theorem foldl_processPatch_G1 (cfg : Config) (ts : List String)
    (ps : List TriggerPatch) (h : Sink) (t : String) (c r : Int) :
    ps.foldl (processPatch cfg ts) h (nameG1 t) c r =
      h (nameG1 t) c r + ts.count t * ps.countP (countsHigh cfg c r) := by
  induction ps generalizing h with
  | nil => simp
  | cons p ps ih =>
    rw [List.foldl_cons, ih, processPatch_G1, List.countP_cons]
    by_cases hp : countsHigh cfg c r p = true
    · have hc : p.isGammaLowRecalc = true ∧ ampGt p.adcAmp cfg.fRecalcHigh = true ∧
          c = p.colStart ∧ r = p.rowStart := by
        simp only [countsHigh, Bool.and_eq_true, decide_eq_true_eq] at hp
        exact ⟨hp.1.1.1, hp.1.1.2, hp.1.2.symm, hp.2.symm⟩
      rw [if_pos hc, if_pos hp]
      ring
    · have hc : ¬ (p.isGammaLowRecalc = true ∧ ampGt p.adcAmp cfg.fRecalcHigh = true ∧
          c = p.colStart ∧ r = p.rowStart) := by
        intro hc
        apply hp
        simp only [countsHigh, Bool.and_eq_true, decide_eq_true_eq]
        exact ⟨⟨⟨hc.1, hc.2.1⟩, hc.2.2.1.symm⟩, hc.2.2.2.symm⟩
      rw [if_neg hc, if_neg hp]
      ring

/-! ## Trigger classification -/

/-- C1: when the selection mask lacks the gamma-trigger bit `kEMCEGA`, the
vector `triggers` built at the start of `Run` is exactly `["MB"]`, whatever the
fired-trigger-class string is. -/
theorem classify_no_gamma_bit (k : TriggerConsts) (ev : Event)
    (hbit : ev.selectionMask &&& k.kEMCEGA = 0) :
    ClassifyTriggers k ev = ["MB"] := by
  have hb : ¬ ((ev.selectionMask &&& k.kEMCEGA != 0) = true) := by simpa using hbit
  unfold ClassifyTriggers
  rw [if_neg hb]

theorem classify_no_gamma_bit_witness :
    evMinBias.selectionMask &&& sampleConsts.kEMCEGA = 0 ∧
    Contains evMinBias.firedTriggerClasses "EG1" = true ∧
    ClassifyTriggers sampleConsts evMinBias = ["MB"] :=
  ⟨by decide, by decide, classify_no_gamma_bit sampleConsts evMinBias (by decide)⟩

/-- C2: when the selection mask includes the gamma-trigger bit, `triggers`
holds exactly the labels among `EG1`, `EG2`, `DG1`, `DG2` that occur as a
substring of the fired-trigger-class string, none of them twice and never `MB`;
a string with `EG1` and `DG2` but neither `EG2` nor `DG1` gives
`["EG1", "DG2"]`. -/
theorem classify_gamma_bit (k : TriggerConsts) (ev : Event)
    (hbit : ev.selectionMask &&& k.kEMCEGA ≠ 0) :
    (∀ t, t ∈ ClassifyTriggers k ev ↔
        t ∈ gammaLabels ∧ t.data <:+: ev.firedTriggerClasses.data) ∧
    (ClassifyTriggers k ev).Nodup ∧
    "MB" ∉ ClassifyTriggers k ev ∧
    (Contains ev.firedTriggerClasses "EG1" = true →
      Contains ev.firedTriggerClasses "DG2" = true →
      Contains ev.firedTriggerClasses "EG2" = false →
      Contains ev.firedTriggerClasses "DG1" = false →
      ClassifyTriggers k ev = ["EG1", "DG2"]) := by
  have hf := ClassifyTriggers_eq_filter k ev hbit
  refine ⟨?_, ClassifyTriggers_nodup k ev, ?_, ?_⟩
  · intro t
    rw [hf, List.mem_filter, Contains_iff]
  · rw [hf, List.mem_filter]
    intro h
    exact absurd h.1 (by decide)
  · intro h1 h4 h2 h3
    rw [hf]
    simp [gammaLabels, List.filter, h1, h2, h3, h4]

theorem classify_gamma_bit_witness :
    evGamma.selectionMask &&& sampleConsts.kEMCEGA ≠ 0 ∧
    ClassifyTriggers sampleConsts evGamma = ["EG1", "DG2"] :=
  ⟨by decide,
   (classify_gamma_bit sampleConsts evGamma (by decide)).2.2.2
     (by decide) (by decide) (by decide) (by decide)⟩

/-- C3, as stated, fails: a selected event with the gamma bit set whose
fired-class string names none of the four labels has an empty `triggers`
vector, which is neither non-empty nor `["MB"]`. -/
theorem classify_selected_empty :
    IsEventSelected sampleConsts evGammaNoLabel = true ∧
    Contains evGammaNoLabel.firedTriggerClasses "EG1" = false ∧
    Contains evGammaNoLabel.firedTriggerClasses "EG2" = false ∧
    Contains evGammaNoLabel.firedTriggerClasses "DG1" = false ∧
    Contains evGammaNoLabel.firedTriggerClasses "DG2" = false ∧
    ClassifyTriggers sampleConsts evGammaNoLabel = [] ∧
    ClassifyTriggers sampleConsts evGammaNoLabel ≠ ["MB"] := by
  decide

/-- C3, amended: for every event that passes `IsEventSelected`, exactly one of
three cases holds for `triggers`: it contains at least one gamma class, or it is
`["MB"]`, or it is empty. It is `["MB"]` exactly when the gamma bit is unset, and
empty exactly when the gamma bit is set and none of the four labels matches the
fired-class string; so it is non-empty whenever the gamma bit is unset or a
label matches. When it is `["MB"]` the minimum-bias bit `kINT7` is set. -/
theorem classify_selected_cases (k : TriggerConsts) (ev : Event)
    (hsel : IsEventSelected k ev = true) :
    (ClassifyTriggers k ev = ["MB"] ↔ ev.selectionMask &&& k.kEMCEGA = 0) ∧
    (ClassifyTriggers k ev = ["MB"] → ev.selectionMask &&& k.kINT7 ≠ 0) ∧
    (ClassifyTriggers k ev = [] ↔
      ev.selectionMask &&& k.kEMCEGA ≠ 0 ∧
        ∀ t ∈ gammaLabels, Contains ev.firedTriggerClasses t = false) ∧
    ((∃ t ∈ gammaLabels, t ∈ ClassifyTriggers k ev) ↔
      ev.selectionMask &&& k.kEMCEGA ≠ 0 ∧
        ∃ t ∈ gammaLabels, Contains ev.firedTriggerClasses t = true) ∧
    (((∃ t ∈ gammaLabels, t ∈ ClassifyTriggers k ev) ∧
        ClassifyTriggers k ev ≠ ["MB"] ∧ ClassifyTriggers k ev ≠ []) ∨
      ((¬ ∃ t ∈ gammaLabels, t ∈ ClassifyTriggers k ev) ∧
        ClassifyTriggers k ev = ["MB"] ∧ ClassifyTriggers k ev ≠ []) ∨
      ((¬ ∃ t ∈ gammaLabels, t ∈ ClassifyTriggers k ev) ∧
        ClassifyTriggers k ev ≠ ["MB"] ∧ ClassifyTriggers k ev = [])) := by
  by_cases hbit : ev.selectionMask &&& k.kEMCEGA = 0
  · have hmb := classify_no_gamma_bit k ev hbit
    rw [hmb]
    have hno : ¬ ∃ t ∈ gammaLabels, t ∈ ["MB"] := by decide
    refine ⟨by simp [hbit], ?_, by simp [hbit], ?_, ?_⟩
    · intro _
      rcases ((IsEventSelected_iff k ev).1 hsel).2.2 with h | h
      · exact absurd hbit h
      · exact h
    · constructor
      · intro h
        exact absurd h hno
      · intro h
        exact absurd hbit h.1
    · exact Or.inr (Or.inl ⟨hno, rfl, by simp⟩)
  · have hf := ClassifyTriggers_eq_filter k ev hbit
    have hmem : ∀ t, t ∈ ClassifyTriggers k ev ↔
        t ∈ gammaLabels ∧ Contains ev.firedTriggerClasses t = true := by
      intro t
      rw [hf, List.mem_filter]
    have hnomb : ClassifyTriggers k ev ≠ ["MB"] := by
      intro h
      have : "MB" ∈ ClassifyTriggers k ev := by rw [h]; exact List.mem_singleton_self _
      exact absurd ((hmem "MB").1 this).1 (by decide)
    have hempty : ClassifyTriggers k ev = [] ↔
        ∀ t ∈ gammaLabels, Contains ev.firedTriggerClasses t = false := by
      rw [List.eq_nil_iff_forall_not_mem]
      constructor
      · intro h t ht
        cases hc : Contains ev.firedTriggerClasses t
        · rfl
        · exact absurd ((hmem t).2 ⟨ht, hc⟩) (h t)
      · intro h t ht
        have h1 := (hmem t).1 ht
        rw [h t h1.1] at h1
        exact absurd h1.2 (by decide)
    have hex : (∃ t ∈ gammaLabels, t ∈ ClassifyTriggers k ev) ↔
        ∃ t ∈ gammaLabels, Contains ev.firedTriggerClasses t = true := by
      constructor
      · rintro ⟨t, ht, hin⟩
        exact ⟨t, ht, ((hmem t).1 hin).2⟩
      · rintro ⟨t, ht, hc⟩
        exact ⟨t, ht, (hmem t).2 ⟨ht, hc⟩⟩
    refine ⟨?_, ?_, ?_, ?_, ?_⟩
    · constructor
      · intro h
        exact absurd h hnomb
      · intro h
        exact absurd h hbit
    · intro h
      exact absurd h hnomb
    · rw [hempty]
      constructor
      · intro h
        exact ⟨hbit, h⟩
      · intro h
        exact h.2
    · rw [hex]
      constructor
      · intro h
        exact ⟨hbit, h⟩
      · intro h
        exact h.2
    · by_cases he : ClassifyTriggers k ev = []
      · refine Or.inr (Or.inr ⟨?_, hnomb, he⟩)
        rintro ⟨t, _, hin⟩
        rw [he] at hin
        exact absurd hin (List.not_mem_nil t)
      · refine Or.inl ⟨?_, hnomb, he⟩
        obtain ⟨t, ht⟩ := List.exists_mem_of_ne_nil _ he
        exact ⟨t, ((hmem t).1 ht).1, ht⟩

theorem classify_selected_cases_witness :
    IsEventSelected sampleConsts evGamma = true ∧
    ((ClassifyTriggers sampleConsts evGamma = [] ↔
      evGamma.selectionMask &&& sampleConsts.kEMCEGA ≠ 0 ∧
        ∀ t ∈ gammaLabels, Contains evGamma.firedTriggerClasses t = false)) :=
  ⟨by decide, (classify_selected_cases sampleConsts evGamma (by decide)).2.2.1⟩

/-! ## Recalculated mode -/

/-- C4: in recalculated mode, a patch flagged gamma-low-recalc whose amplitude
lies strictly between `fRecalcLow` and `fRecalcHigh` adds exactly 1 to bin
(column, row) of `hColRowG2<class>` for each class of the trigger-class set, and
leaves every bin of every `hColRowG1<class>` histogram unchanged. -/
theorem recalc_between_thresholds (cfg : Config) (triggers : List String) (h : Sink)
    (p : TriggerPatch) (hnd : triggers.Nodup) (hflag : p.isGammaLowRecalc = true)
    (hlo : ampGt p.adcAmp cfg.fRecalcLow = true)
    (hhi : ampLt p.adcAmp cfg.fRecalcHigh = true) :
    (∀ t ∈ triggers,
      processPatch cfg triggers h p (nameG2 t) p.colStart p.rowStart =
        h (nameG2 t) p.colStart p.rowStart + 1) ∧
    (∀ t c r, processPatch cfg triggers h p (nameG1 t) c r = h (nameG1 t) c r) := by
  constructor
  · intro t ht
    rw [processPatch_G2, count_eq_one_of_nodup hnd ht]
    simp [hflag, hlo]
  · intro t c r
    rw [processPatch_G1, ampLt_not_ampGt hhi]
    simp

theorem recalc_between_thresholds_witness :
    ["EG1", "DG2"].Nodup ∧ patchBetween.isGammaLowRecalc = true ∧
    ampGt patchBetween.adcAmp cfgRecalc.fRecalcLow = true ∧
    ampLt patchBetween.adcAmp cfgRecalc.fRecalcHigh = true ∧
    processPatch cfgRecalc ["EG1", "DG2"] Sink.empty patchBetween (nameG2 "DG2") 3 4 =
      Sink.empty (nameG2 "DG2") 3 4 + 1 ∧
    processPatch cfgRecalc ["EG1", "DG2"] Sink.empty patchBetween (nameG1 "DG2") 3 4 =
      Sink.empty (nameG1 "DG2") 3 4 :=
  ⟨by decide, by decide, by decide, by decide,
   (recalc_between_thresholds cfgRecalc ["EG1", "DG2"] Sink.empty patchBetween
      (by decide) (by decide) (by decide) (by decide)).1 "DG2" (by decide),
   (recalc_between_thresholds cfgRecalc ["EG1", "DG2"] Sink.empty patchBetween
      (by decide) (by decide) (by decide) (by decide)).2 "DG2" 3 4⟩

/-- C5: in recalculated mode, a patch flagged gamma-low-recalc whose amplitude
exceeds both `fRecalcLow` and `fRecalcHigh` adds exactly 1 to bin (column, row)
of `hColRowG1<class>` and exactly 1 to bin (column, row) of `hColRowG2<class>`
for each class of the trigger-class set. -/
theorem recalc_above_both (cfg : Config) (triggers : List String) (h : Sink)
    (p : TriggerPatch) (hnd : triggers.Nodup) (hflag : p.isGammaLowRecalc = true)
    (hlo : ampGt p.adcAmp cfg.fRecalcLow = true)
    (hhi : ampGt p.adcAmp cfg.fRecalcHigh = true) :
    ∀ t ∈ triggers,
      processPatch cfg triggers h p (nameG1 t) p.colStart p.rowStart =
        h (nameG1 t) p.colStart p.rowStart + 1 ∧
      processPatch cfg triggers h p (nameG2 t) p.colStart p.rowStart =
        h (nameG2 t) p.colStart p.rowStart + 1 := by
  intro t ht
  constructor
  · rw [processPatch_G1, count_eq_one_of_nodup hnd ht]
    simp [hflag, hhi]
  · rw [processPatch_G2, count_eq_one_of_nodup hnd ht]
    simp [hflag, hlo]

theorem recalc_above_both_witness :
    ["EG1", "DG2"].Nodup ∧ patchAbove.isGammaLowRecalc = true ∧
    ampGt patchAbove.adcAmp cfgRecalc.fRecalcLow = true ∧
    ampGt patchAbove.adcAmp cfgRecalc.fRecalcHigh = true ∧
    (processPatch cfgRecalc ["EG1", "DG2"] Sink.empty patchAbove (nameG1 "EG1") 3 4 =
      Sink.empty (nameG1 "EG1") 3 4 + 1 ∧
     processPatch cfgRecalc ["EG1", "DG2"] Sink.empty patchAbove (nameG2 "EG1") 3 4 =
      Sink.empty (nameG2 "EG1") 3 4 + 1) :=
  ⟨by decide, by decide, by decide, by decide,
   recalc_above_both cfgRecalc ["EG1", "DG2"] Sink.empty patchAbove
      (by decide) (by decide) (by decide) (by decide) "EG1" (by decide)⟩

/-- C6: in recalculated mode the threshold comparisons are strict: for every
patch and every trigger-class list, an amplitude equal to `fRecalcLow` leaves
every bin of every `hColRowG2<class>` histogram unchanged, and an amplitude
equal to `fRecalcHigh` leaves every bin of every `hColRowG1<class>` histogram
unchanged. -/
theorem recalc_threshold_strict (cfg : Config) (triggers : List String) (h : Sink)
    (p : TriggerPatch) :
    (ampEq p.adcAmp cfg.fRecalcLow = true →
      ∀ t c r, processPatch cfg triggers h p (nameG2 t) c r = h (nameG2 t) c r) ∧
    (ampEq p.adcAmp cfg.fRecalcHigh = true →
      ∀ t c r, processPatch cfg triggers h p (nameG1 t) c r = h (nameG1 t) c r) := by
  constructor
  · intro heq t c r
    rw [processPatch_G2, ampEq_not_ampGt heq]
    simp
  · intro heq t c r
    rw [processPatch_G1, ampEq_not_ampGt heq]
    simp

theorem recalc_threshold_strict_witness :
    ampEq patchAtLow.adcAmp cfgRecalc.fRecalcLow = true ∧
    ampEq patchAtHigh.adcAmp cfgRecalc.fRecalcHigh = true ∧
    processPatch cfgRecalc ["EG1", "DG2"] Sink.empty patchAtLow (nameG2 "EG1") 3 4 =
      Sink.empty (nameG2 "EG1") 3 4 ∧
    processPatch cfgRecalc ["EG1", "DG2"] Sink.empty patchAtHigh (nameG1 "EG1") 3 4 =
      Sink.empty (nameG1 "EG1") 3 4 :=
  ⟨by decide, by decide,
   (recalc_threshold_strict cfgRecalc ["EG1", "DG2"] Sink.empty patchAtLow).1
      (by decide) "EG1" 3 4,
   (recalc_threshold_strict cfgRecalc ["EG1", "DG2"] Sink.empty patchAtHigh).2
      (by decide) "EG1" 3 4⟩

/-- C11: in recalculated mode the two threshold tests are independent: for a
flagged patch whose amplitude exceeds `fRecalcHigh` but not `fRecalcLow` (which
happens only when `fRecalcHigh < fRecalcLow`), processing the patch adds 1 to
bin (column, row) of `hColRowG1<class>` for each class of the trigger-class set
and leaves every bin of every `hColRowG2<class>` histogram unchanged. -/
theorem recalc_high_only (cfg : Config) (triggers : List String) (h : Sink)
    (p : TriggerPatch) (hnd : triggers.Nodup) (hflag : p.isGammaLowRecalc = true)
    (hhi : ampGt p.adcAmp cfg.fRecalcHigh = true)
    (hle : ampLe p.adcAmp cfg.fRecalcLow = true) :
    DoubleVal.lt cfg.fRecalcHigh cfg.fRecalcLow = true ∧
    (∀ t ∈ triggers,
      processPatch cfg triggers h p (nameG1 t) p.colStart p.rowStart =
        h (nameG1 t) p.colStart p.rowStart + 1) ∧
    (∀ t c r, processPatch cfg triggers h p (nameG2 t) c r = h (nameG2 t) c r) := by
  refine ⟨lt_of_ampGt_of_ampLe hhi hle, ?_, ?_⟩
  · intro t ht
    rw [processPatch_G1, count_eq_one_of_nodup hnd ht]
    simp [hflag, hhi]
  · intro t c r
    rw [processPatch_G2, ampLe_not_ampGt hle]
    simp

theorem recalc_high_only_witness :
    ["EG1", "DG2"].Nodup ∧ patchBetween.isGammaLowRecalc = true ∧
    ampGt patchBetween.adcAmp cfgInverted.fRecalcHigh = true ∧
    ampLe patchBetween.adcAmp cfgInverted.fRecalcLow = true ∧
    processPatch cfgInverted ["EG1", "DG2"] Sink.empty patchBetween (nameG1 "EG1") 3 4 =
      Sink.empty (nameG1 "EG1") 3 4 + 1 ∧
    processPatch cfgInverted ["EG1", "DG2"] Sink.empty patchBetween (nameG2 "EG1") 3 4 =
      Sink.empty (nameG2 "EG1") 3 4 :=
  ⟨by decide, by decide, by decide, by decide,
   (recalc_high_only cfgInverted ["EG1", "DG2"] Sink.empty patchBetween
      (by decide) (by decide) (by decide) (by decide)).2.1 "EG1" (by decide),
   (recalc_high_only cfgInverted ["EG1", "DG2"] Sink.empty patchBetween
      (by decide) (by decide) (by decide) (by decide)).2.2 "EG1" 3 4⟩

/-- C12: in recalculated mode, starting from the all-zero sink, after the loop
over a list of patches the content of `hColRowG2<t>` at (column, row) is, when
`t` is in the trigger-class set, the number of patches of the list that are
flagged gamma-low-recalc, start at (column, row) and have amplitude above
`fRecalcLow`, and 0 when `t` is not in the set; `hColRowG1<t>` likewise holds
the number of such patches with amplitude above `fRecalcHigh`. From any starting
sink, the histograms of a class outside the set keep their contents. -/
theorem recalc_loop_counts (cfg : Config) (triggers : List String)
    (patches : List TriggerPatch) (hnd : triggers.Nodup) (t : String) (c r : Int) :
    patches.foldl (processPatch cfg triggers) Sink.empty (nameG2 t) c r =
      (if t ∈ triggers then patches.countP (countsLow cfg c r) else 0) ∧
    patches.foldl (processPatch cfg triggers) Sink.empty (nameG1 t) c r =
      (if t ∈ triggers then patches.countP (countsHigh cfg c r) else 0) ∧
    (t ∉ triggers → ∀ h : Sink,
      patches.foldl (processPatch cfg triggers) h (nameG2 t) c r = h (nameG2 t) c r ∧
      patches.foldl (processPatch cfg triggers) h (nameG1 t) c r = h (nameG1 t) c r) := by
  refine ⟨?_, ?_, ?_⟩
  · rw [foldl_processPatch_G2]
    by_cases ht : t ∈ triggers
    · rw [if_pos ht, count_eq_one_of_nodup hnd ht]
      simp [Sink.empty]
    · rw [if_neg ht, List.count_eq_zero_of_not_mem ht]
      simp [Sink.empty]
  · rw [foldl_processPatch_G1]
    by_cases ht : t ∈ triggers
    · rw [if_pos ht, count_eq_one_of_nodup hnd ht]
      simp [Sink.empty]
    · rw [if_neg ht, List.count_eq_zero_of_not_mem ht]
      simp [Sink.empty]
  · intro ht h
    rw [foldl_processPatch_G2, foldl_processPatch_G1, List.count_eq_zero_of_not_mem ht]
    simp

theorem recalc_loop_counts_witness :
    ["EG1", "DG2"].Nodup ∧
    samplePatches.foldl (processPatch cfgRecalc ["EG1", "DG2"]) Sink.empty
      (nameG2 "DG2") 3 4 = 3 ∧
    samplePatches.foldl (processPatch cfgRecalc ["EG1", "DG2"]) Sink.empty
      (nameG1 "DG2") 3 4 = 2 ∧
    samplePatches.foldl (processPatch cfgRecalc ["EG1", "DG2"]) Sink.empty
      (nameG2 "MB") 3 4 = 0 :=
  ⟨by decide,
   (recalc_loop_counts cfgRecalc ["EG1", "DG2"] samplePatches (by decide) "DG2" 3 4).1,
   (recalc_loop_counts cfgRecalc ["EG1", "DG2"] samplePatches (by decide) "DG2" 3 4).2.1,
   (recalc_loop_counts cfgRecalc ["EG1", "DG2"] samplePatches (by decide) "MB" 3 4).1⟩

/-! ## Raw mode -/

/-- C7: in raw mode, an entry whose trigger bits have both the L1-gamma-high and
the L1-gamma-low bit set adds exactly 1 to bin (column, row) of
`hColRowG1<class>` and exactly 1 to bin (column, row) of `hColRowG2<class>` for
each class of the trigger-class set; an entry with only the high bit set
increments only `G1`, and one with only the low bit set increments only `G2`. -/
theorem raw_bits_fill (k : TriggerConsts) (triggers : List String) (h : Sink)
    (e : RawEntry) (hnd : triggers.Nodup) :
    (bitSet e.triggerbits k.kL1GammaHigh = true →
      bitSet e.triggerbits k.kL1GammaLow = true →
      ∀ t ∈ triggers,
        processRaw k triggers h e (nameG1 t) e.col e.row = h (nameG1 t) e.col e.row + 1 ∧
        processRaw k triggers h e (nameG2 t) e.col e.row = h (nameG2 t) e.col e.row + 1) ∧
    (bitSet e.triggerbits k.kL1GammaHigh = true →
      bitSet e.triggerbits k.kL1GammaLow = false →
      (∀ t ∈ triggers,
        processRaw k triggers h e (nameG1 t) e.col e.row = h (nameG1 t) e.col e.row + 1) ∧
      (∀ t c r, processRaw k triggers h e (nameG2 t) c r = h (nameG2 t) c r)) ∧
    (bitSet e.triggerbits k.kL1GammaHigh = false →
      bitSet e.triggerbits k.kL1GammaLow = true →
      (∀ t ∈ triggers,
        processRaw k triggers h e (nameG2 t) e.col e.row = h (nameG2 t) e.col e.row + 1) ∧
      (∀ t c r, processRaw k triggers h e (nameG1 t) c r = h (nameG1 t) c r)) := by
  refine ⟨?_, ?_, ?_⟩
  · intro hhi hlo t ht
    rw [processRaw_G1, processRaw_G2, count_eq_one_of_nodup hnd ht]
    simp [hhi, hlo]
  · intro hhi hlo
    constructor
    · intro t ht
      rw [processRaw_G1, count_eq_one_of_nodup hnd ht]
      simp [hhi]
    · intro t c r
      rw [processRaw_G2, hlo]
      simp
  · intro hhi hlo
    constructor
    · intro t ht
      rw [processRaw_G2, count_eq_one_of_nodup hnd ht]
      simp [hlo]
    · intro t c r
      rw [processRaw_G1, hhi]
      simp

theorem raw_bits_fill_witness :
    ["EG1", "DG2"].Nodup ∧
    (bitSet rawBoth.triggerbits sampleConsts.kL1GammaHigh = true ∧
     bitSet rawBoth.triggerbits sampleConsts.kL1GammaLow = true ∧
     processRaw sampleConsts ["EG1", "DG2"] Sink.empty rawBoth (nameG1 "EG1") 3 4 =
       Sink.empty (nameG1 "EG1") 3 4 + 1 ∧
     processRaw sampleConsts ["EG1", "DG2"] Sink.empty rawBoth (nameG2 "EG1") 3 4 =
       Sink.empty (nameG2 "EG1") 3 4 + 1) ∧
    (bitSet rawHigh.triggerbits sampleConsts.kL1GammaHigh = true ∧
     bitSet rawHigh.triggerbits sampleConsts.kL1GammaLow = false ∧
     processRaw sampleConsts ["EG1", "DG2"] Sink.empty rawHigh (nameG1 "EG1") 3 4 =
       Sink.empty (nameG1 "EG1") 3 4 + 1 ∧
     processRaw sampleConsts ["EG1", "DG2"] Sink.empty rawHigh (nameG2 "EG1") 3 4 =
       Sink.empty (nameG2 "EG1") 3 4) ∧
    (bitSet rawLow.triggerbits sampleConsts.kL1GammaHigh = false ∧
     bitSet rawLow.triggerbits sampleConsts.kL1GammaLow = true ∧
     processRaw sampleConsts ["EG1", "DG2"] Sink.empty rawLow (nameG2 "EG1") 3 4 =
       Sink.empty (nameG2 "EG1") 3 4 + 1 ∧
     processRaw sampleConsts ["EG1", "DG2"] Sink.empty rawLow (nameG1 "EG1") 3 4 =
       Sink.empty (nameG1 "EG1") 3 4) :=
  ⟨by decide,
   ⟨by decide, by decide,
    ((raw_bits_fill sampleConsts ["EG1", "DG2"] Sink.empty rawBoth (by decide)).1
      (by decide) (by decide) "EG1" (by decide)).1,
    ((raw_bits_fill sampleConsts ["EG1", "DG2"] Sink.empty rawBoth (by decide)).1
      (by decide) (by decide) "EG1" (by decide)).2⟩,
   ⟨by decide, by decide,
    ((raw_bits_fill sampleConsts ["EG1", "DG2"] Sink.empty rawHigh (by decide)).2.1
      (by decide) (by decide)).1 "EG1" (by decide),
    ((raw_bits_fill sampleConsts ["EG1", "DG2"] Sink.empty rawHigh (by decide)).2.1
      (by decide) (by decide)).2 "EG1" 3 4⟩,
   ⟨by decide, by decide,
    ((raw_bits_fill sampleConsts ["EG1", "DG2"] Sink.empty rawLow (by decide)).2.2
      (by decide) (by decide)).1 "EG1" (by decide),
    ((raw_bits_fill sampleConsts ["EG1", "DG2"] Sink.empty rawLow (by decide)).2.2
      (by decide) (by decide)).2 "EG1" 3 4⟩⟩

/-- C8, as stated, fails: an entry at position (0, 0) with the gamma-high bit
set is not skipped and increments `hColRowG1MB` at bin (0, 0); and of two
entries at one and the same nonzero position, the one with neither gamma bit is
skipped while the one with the gamma-high bit is not. -/
theorem raw_origin_entry_fills :
    rawOriginHigh.col = 0 ∧ rawOriginHigh.row = 0 ∧
    rawSkip sampleConsts rawOriginHigh = false ∧
    processRaw sampleConsts ["MB"] Sink.empty rawOriginHigh (nameG1 "MB") 0 0 = 1 ∧
    rawNone.col = rawHigh.col ∧ rawNone.row = rawHigh.row ∧
    rawSkip sampleConsts rawNone = true ∧ rawSkip sampleConsts rawHigh = false ∧
    processRaw sampleConsts ["MB"] Sink.empty rawNone (nameG1 "MB") 3 4 = 0 ∧
    processRaw sampleConsts ["MB"] Sink.empty rawHigh (nameG1 "MB") 3 4 = 1 := by
  decide

/-- C8, amended: in raw mode the gamma-high / gamma-low bits are tested for
every raw-stream entry, whatever its position. An entry is skipped exactly when
neither bit is set, and a skipped entry increments no histogram; the skip
decision is the same for two entries with equal trigger bits, wherever they
are. An entry at position (0, 0) adds to bin (0, 0) of `hColRowG1<class>`
(`hColRowG2<class>`) of each class 1 when its gamma-high (gamma-low) bit is
set and 0 otherwise. -/
theorem raw_skip_by_bits (k : TriggerConsts) (triggers : List String) (h : Sink)
    (e : RawEntry) :
    (rawSkip k e = true ↔
      bitSet e.triggerbits k.kL1GammaHigh = false ∧
        bitSet e.triggerbits k.kL1GammaLow = false) ∧
    (rawSkip k e = true → processRaw k triggers h e = h) ∧
    (∀ e2 : RawEntry, e2.triggerbits = e.triggerbits → rawSkip k e2 = rawSkip k e) ∧
    (triggers.Nodup → e.col = 0 → e.row = 0 → ∀ t ∈ triggers,
      processRaw k triggers h e (nameG1 t) 0 0 =
        h (nameG1 t) 0 0 + (if bitSet e.triggerbits k.kL1GammaHigh = true then 1 else 0) ∧
      processRaw k triggers h e (nameG2 t) 0 0 =
        h (nameG2 t) 0 0 + (if bitSet e.triggerbits k.kL1GammaLow = true then 1 else 0)) := by
  have hiff : rawSkip k e = true ↔
      bitSet e.triggerbits k.kL1GammaHigh = false ∧
        bitSet e.triggerbits k.kL1GammaLow = false := by
    rw [rawSkip_eq]
    cases bitSet e.triggerbits k.kL1GammaHigh <;>
      cases bitSet e.triggerbits k.kL1GammaLow <;> simp
  refine ⟨hiff, ?_, ?_, ?_⟩
  · intro hs
    exact processRaw_skip k triggers h e (hiff.1 hs).1 (hiff.1 hs).2
  · intro e2 he
    unfold rawSkip
    rw [he]
  · intro hnd hc hr t ht
    rw [processRaw_G1, processRaw_G2, count_eq_one_of_nodup hnd ht, hc, hr]
    simp

theorem raw_skip_by_bits_witness :
    rawSkip sampleConsts rawNone = true ∧
    processRaw sampleConsts ["MB"] Sink.empty rawNone = Sink.empty ∧
    ["MB"].Nodup ∧ rawOriginHigh.col = 0 ∧ rawOriginHigh.row = 0 ∧
    processRaw sampleConsts ["MB"] Sink.empty rawOriginHigh (nameG1 "MB") 0 0 =
      Sink.empty (nameG1 "MB") 0 0 +
        (if bitSet rawOriginHigh.triggerbits sampleConsts.kL1GammaHigh = true
          then 1 else 0) :=
  ⟨by decide,
   (raw_skip_by_bits sampleConsts ["MB"] Sink.empty rawNone).2.1 (by decide),
   by decide, by decide, by decide,
   ((raw_skip_by_bits sampleConsts ["MB"] Sink.empty rawOriginHigh).2.2.2
      (by decide) (by decide) (by decide) "MB" (by decide)).1⟩

/-! ## Event selection -/

/-- C9: `IsEventSelected` returns true if and only if the vertex passes the 2013
p-A vertex selection, the event is not flagged as pile-up, and the selection
mask has at least one of the `kEMCEGA` or `kINT7` bits set; in every other case
it returns false. -/
theorem isEventSelected_spec (k : TriggerConsts) (ev : Event) :
    (IsEventSelected k ev = true ↔
      ev.vertexSelected2013pA = true ∧ ev.pileUp = false ∧
        (ev.selectionMask &&& k.kEMCEGA ≠ 0 ∨ ev.selectionMask &&& k.kINT7 ≠ 0)) ∧
    (IsEventSelected k ev = false ↔
      ¬ (ev.vertexSelected2013pA = true ∧ ev.pileUp = false ∧
        (ev.selectionMask &&& k.kEMCEGA ≠ 0 ∨ ev.selectionMask &&& k.kINT7 ≠ 0))) := by
  refine ⟨IsEventSelected_iff k ev, ?_⟩
  rw [← IsEventSelected_iff]
  simp

/-- C10: when `IsEventSelected` returns false, processing the event leaves every
bin of every histogram unchanged and reports no error, in recalculated and in
raw mode alike (also when the raw trigger object is absent). -/
theorem rejected_event_skipped (k : TriggerConsts) (cfg : Config) (ev : Event)
    (h : Sink) (hrej : IsEventSelected k ev = false) :
    processEvent k cfg ev h = some h := by
  unfold processEvent
  rw [hrej]
  simp

theorem rejected_event_skipped_witness :
    IsEventSelected sampleConsts evPileUp = false ∧
    processEvent sampleConsts cfgRecalc evPileUp Sink.empty = some Sink.empty ∧
    processEvent sampleConsts cfgRaw evPileUp Sink.empty = some Sink.empty :=
  ⟨by decide,
   rejected_event_skipped sampleConsts cfgRecalc evPileUp Sink.empty (by decide),
   rejected_event_skipped sampleConsts cfgRaw evPileUp Sink.empty (by decide)⟩

end EMCalTriggerPtAnalysis

namespace ExtractGSE2

open EMCalTriggerPtAnalysis

/-! ## Centrality bins -/

/-- Rounding keeps small integers and halves them exactly. -/
theorem centralityMean_sample :
    centralityMean (.fin 10) (.fin 20) = .fin 15 ∧
    centralityMean (.fin (-40)) (.fin (-30)) = .fin (-35) ∧
    centralityMean (.fin 1000) (.fin 2000) = .fin 1500 := by
  decide!

/-- The sum `10 + (-2^-60)` rounds to 10 (a tie, resolved to the even
significand), so the mean is 5 and `PbPbBin` returns 1, although the exact mean
lies below 5. -/
theorem PbPbBin_rounded_sum :
    DoubleVal.add (.fin 10) (.fin (-(1 / 2 ^ 60))) = .fin 10 ∧
    centralityMean (.fin 10) (.fin (-(1 / 2 ^ 60))) = .fin 5 ∧
    PbPbBin (.fin 10) (.fin (-(1 / 2 ^ 60))) = 1 ∧
    ((10 : ℚ) + -(1 / 2 ^ 60)) / 2 < 5 := by
  refine ⟨by decide!, by decide!, by decide!, by norm_num⟩

/-- Sample roundings: one tenth becomes the `Double_t` literal `0.1`, a tie
between two neighbours goes to the even significand, the smallest magnitudes are
multiples of `2^-1074`, and the sum of the two largest doubles overflows. -/
theorem roundDouble_samples :
    roundDouble (1 / 10) = .fin (3602879701896397 / 2 ^ 55) ∧
    roundDouble (2 ^ 53 + 1) = .fin (2 ^ 53) ∧
    roundDouble (2 ^ 53 + 3) = .fin (2 ^ 53 + 4) ∧
    roundDouble (-(2 ^ 53 + 3)) = .fin (-(2 ^ 53 + 4)) ∧
    roundDouble (3 / 2 ^ 1075) = .fin (2 / 2 ^ 1074) ∧
    roundDouble (1 / 2 ^ 1075) = .fin 0 ∧
    roundDouble (2 ^ 1024 - 2 ^ 971) = .fin (2 ^ 1024 - 2 ^ 971) ∧
    DoubleVal.add (.fin (2 ^ 1024 - 2 ^ 971)) (.fin (2 ^ 1024 - 2 ^ 971)) = .posInf := by
  refine ⟨by decide!, by decide!, by decide!, by decide!, by decide!, by decide!,
    by decide!, by decide!⟩

/-- The literal `1e-6` is positive. -/
theorem lit1em6_pos : 0 < lit1em6 := by
  unfold lit1em6
  positivity

/-- After the guard the efficiency converts to a true condition. -/
theorem effAfterGuard_toBool (read : DoubleVal) :
    (effAfterGuard read).toBool = true := by
  unfold effAfterGuard
  by_cases h : read.lt (.fin lit1em6) = true
  · simp [h, DoubleVal.toBool]
  · simp only [h]
    cases read with
    | fin q =>
      simp only [DoubleVal.lt, decide_eq_true_eq, not_lt] at h
      have hq : 0 < q := lt_of_lt_of_le lit1em6_pos h
      simp only [Bool.false_eq_true, if_false, DoubleVal.toBool, decide_eq_true_eq]
      exact ne_of_gt hq
    | posInf => rfl
    | negInf => rfl
    | nan => rfl

/-- The common uncertainties of a returned graph end with `TRIGGER`. -/
theorem MakeGSE_some (csysEval : DoubleVal → DoubleVal → DoubleVal → DoubleVal)
    (hasClass : Bool) (g : Option ResultHist) (sNN : Nat)
    (c1 c2 : DoubleVal) (gse : GraphSysErr)
    (h : MakeGSE csysEval hasClass g sNN c1 c2 = some gse) :
    ("TRIGGER", DoubleVal.fin lit0p02) ∈ gse.commons := by
  unfold MakeGSE at h
  cases hasClass with
  | false => simp at h
  | true =>
    cases g with
    | none => simp at h
    | some hist =>
      simp only [Bool.not_true, Bool.false_eq_true, if_false, effAfterGuard_toBool,
        if_true, Option.some.injEq] at h
      rw [← h]
      simp [MakeCommon]

/-- C14: whatever value `MakeGSE` reads from bin 0 as the trigger efficiency,
the efficiency after the guard `if (eff < 1e-6) eff = 1` is nonzero: it is 1
when the read value is below `1e-6` and the read value otherwise. So `if (eff)`
always holds, and every graph `MakeGSE` returns has the common `TRIGGER`
uncertainty of 0.02 declared; a graph is returned whenever the class and the
histogram are found. -/
theorem makeGSE_trigger_declared
    (csysEval : DoubleVal → DoubleVal → DoubleVal → DoubleVal)
    (hasClass : Bool) (g : Option ResultHist) (sNN : Nat) (c1 c2 : DoubleVal) :
    (∀ read : DoubleVal,
      (effAfterGuard read).toBool = true ∧
      (read.lt (.fin lit1em6) = true → effAfterGuard read = .fin 1) ∧
      (read.lt (.fin lit1em6) = false → effAfterGuard read = read)) ∧
    (∀ gse, MakeGSE csysEval hasClass g sNN c1 c2 = some gse →
      ("TRIGGER", DoubleVal.fin lit0p02) ∈ gse.commons) ∧
    (hasClass = true → ∀ hist, g = some hist →
      ∃ gse, MakeGSE csysEval hasClass g sNN c1 c2 = some gse) := by
  refine ⟨?_, ?_, ?_⟩
  · intro read
    refine ⟨effAfterGuard_toBool read, ?_, ?_⟩
    · intro h
      simp [effAfterGuard, h]
    · intro h
      simp [effAfterGuard, h]
  · intro gse h
    exact MakeGSE_some csysEval hasClass g sNN c1 c2 gse h
  · intro hc hist hg
    subst hc
    subst hg
    simp [MakeGSE]

theorem makeGSE_trigger_declared_witness :
    DoubleVal.lt histNoEff.binContent0 (.fin lit1em6) = true ∧
    effAfterGuard histNoEff.binContent0 = .fin 1 ∧
    DoubleVal.lt histHalfEff.binContent0 (.fin lit1em6) = false ∧
    effAfterGuard histHalfEff.binContent0 = histHalfEff.binContent0 ∧
    (∃ gse, MakeGSE csysAtZero true (some histNoEff) 5023 (.fin 0) (.fin 5) = some gse ∧
      ("TRIGGER", DoubleVal.fin lit0p02) ∈ gse.commons) :=
  ⟨by simp [histNoEff, DoubleVal.lt, lit1em6],
   ((makeGSE_trigger_declared csysAtZero true (some histNoEff) 5023 (.fin 0) (.fin 5)).1
      histNoEff.binContent0).2.1 (by simp [histNoEff, DoubleVal.lt, lit1em6]),
   by norm_num [histHalfEff, DoubleVal.lt, lit1em6],
   ((makeGSE_trigger_declared csysAtZero true (some histNoEff) 5023 (.fin 0) (.fin 5)).1
      histHalfEff.binContent0).2.2 (by norm_num [histHalfEff, DoubleVal.lt, lit1em6]),
   ((makeGSE_trigger_declared csysAtZero true (some histNoEff) 5023 (.fin 0) (.fin 5)).2.2
      rfl histNoEff rfl).elim
     (fun gse h => ⟨gse, h,
       (makeGSE_trigger_declared csysAtZero true (some histNoEff) 5023
         (.fin 0) (.fin 5)).2.1 gse h⟩)⟩

end ExtractGSE2
